import Mathlib

/-!
# LAN-Meet unified server and client: a shallow embedding

This file embeds, in Lean 4, the state and message-handling logic of the
LAN-Meet video-conferencing application:

* `ChatServer` — the TCP control-channel server (`unified_server.py`,
  class `ChatServer`): user directory, file registry, upload sinks, and the
  dispatch of newline-delimited JSON records (chat, file transfer, lists).
* `relay_step` — the generic UDP media relay (`run_udp_broadcast_server`):
  a membership map from peer address to last-seen time, refreshed on every
  datagram, with timeout eviction and fan-out forwarding.
* `ClientUI` — the client-side presenter-inference logic
  (`main_app_updated.py`, `update_remote_feed` / `rebuild_video_grid`).
* a small interleaving model of the username handshake's check-then-claim
  sequence, used to examine its behaviour under concurrent execution.

Python dictionaries are modelled as insertion-ordered association lists
(`alookup`, `ainsert`, `aerase`): assignment to an existing key updates the
value in place, assignment to a fresh key appends, and iteration follows
list order, exactly as CPython dict semantics guarantee.  Raw byte strings
are modelled as `List Nat`; the base64 decode applied to `file_chunk` data
is a bijection on the wire, so chunk payloads are carried already decoded.
-/

/-- A connection handle (the Python `conn` socket object), by identity. -/
abbrev Conn := Nat

/-- A username string. -/
abbrev Username := String

/-- Raw bytes of a file or datagram, one `Nat` per byte. -/
abbrev Bytes := List Nat

/-- Ordered-dictionary lookup: first binding of key `k`, scanning left to
right (CPython dict lookup). -/
def alookup {α β : Type} [DecidableEq α] (k : α) : List (α × β) → Option β
  | [] => none
  | (a, b) :: rest => if a = k then some b else alookup k rest

/-- Ordered-dictionary assignment `d[k] = v`: replaces the value in place if
the key is present (keeping its position), appends otherwise — CPython dict
insertion-order semantics. -/
def ainsert {α β : Type} [DecidableEq α] (k : α) (v : β) : List (α × β) → List (α × β)
  | [] => [(k, v)]
  | (a, b) :: rest => if a = k then (k, v) :: rest else (a, b) :: ainsert k v rest

/-- Ordered-dictionary deletion `del d[k]` / `d.pop(k, None)`. -/
def aerase {α β : Type} [DecidableEq α] (k : α) : List (α × β) → List (α × β)
  | [] => []
  | (a, b) :: rest => if a = k then rest else (a, b) :: aerase k rest

/-- A FileRecord of the server's in-memory registry `available_files`: the
`new_file_available` announcement dict kept by `handle_file_end` and
`load_existing_files` — filename, size, and origin (`"from"` field). -/
structure FileRecord where
  filename : String
  size : Nat
  from_ : String
  deriving DecidableEq, Repr

/-- A server→client JSON record, as written by `send_json`.  `fileChunk`
carries the decoded chunk bytes; `raw` is a plain (non-JSON) text line such
as the handshake prompt and replies. -/
inductive Msg where
  | chatMessage (from_ : String) (msg : String) (private_ : Bool)
  | userList (users : List Username)
  | newFileAvailable (filename : String) (size : Nat) (from_ : String)
  | fileListUpdate (files : List FileRecord)
  | fileChunk (data : Bytes)
  | fileEnd (filename : String)
  | error (msg : String)
  | raw (line : String)
  deriving DecidableEq, Repr

/-- The mutable state of `ChatServer` together with the storage directory.
`clients` is `{conn: username}`, `usernames` is `{username: conn}`,
`receiving_files` maps an uploading username to the path its open sink
writes to, `available_files` is the file registry list, and `disk` maps a
path inside `STORAGE_DIR` to the bytes currently written there. -/
structure ChatServer where
  clients : List (Conn × Username)
  usernames : List (Username × Conn)
  receiving_files : List (Username × String)
  available_files : List FileRecord
  disk : List (String × Bytes)
  deriving DecidableEq, Repr

/-- `send_json(conn, obj)`: one queued delivery. -/
def send_json (conn : Conn) (obj : Msg) : List (Conn × Msg) := [(conn, obj)]

/-- `broadcast_json(obj, sender_conn)`: sends `obj` to every connection in
`clients` other than `sender_conn` (which defaults to `None` in Python,
here `none`, excluding nobody). -/
def broadcast_json (clients : List (Conn × Username)) (obj : Msg)
    (sender_conn : Option Conn) : List (Conn × Msg) :=
  (clients.filter (fun p => some p.1 ≠ sender_conn)).map (fun p => (p.1, obj))

/-- `broadcast_message(message, sender_username)`: wraps the text in a
`chat_message{private:false}` record and broadcasts it with no excluded
connection. -/
def broadcast_message (st : ChatServer) (message : String)
    (sender_username : String) : List (Conn × Msg) :=
  broadcast_json st.clients (Msg.chatMessage sender_username message false) none

/-- `send_private_message(message, sender, recipient)`: deliver to the
recipient and echo a copy to the sender if the recipient is live, else an
error record to the sender alone.  `none` marks the `KeyError` raised when
`self.usernames[sender_username]` is missing (the sender is always live on
this path). -/
def send_private_message (st : ChatServer) (message : String)
    (sender_username recipient_username : Username) :
    Option (List (Conn × Msg)) :=
  match alookup recipient_username st.usernames with
  | some recipient_conn =>
    match alookup sender_username st.usernames with
    | some sender_conn =>
      let msg_obj := Msg.chatMessage sender_username message true
      some (send_json recipient_conn msg_obj ++ send_json sender_conn msg_obj)
    | none => none
  | none =>
    match alookup sender_username st.usernames with
    | some sender_conn =>
      some (send_json sender_conn
        (Msg.error ("User " ++ recipient_username ++ " not found.")))
    | none => none

/-- `broadcast_user_list()`: the current username list to every client. -/
def broadcast_user_list (st : ChatServer) : List (Conn × Msg) :=
  broadcast_json st.clients (Msg.userList (st.usernames.map Prod.fst)) none

/-- `TCP_BUFFER_SIZE`: the read granularity of the file-download sender. -/
def TCP_BUFFER_SIZE : Nat := 4096

/-- Split a byte string into consecutive chunks of at most `n` bytes, the
way `f.read(n)` consumes a file until it returns empty. -/
def chunksOf (n : Nat) (l : Bytes) : List Bytes :=
  if _hn : n = 0 then []
  else if _hl : l = [] then []
  else l.take n :: chunksOf n (l.drop n)
termination_by l.length
decreasing_by
  simp_wf
  exact ⟨List.length_pos.mpr _hl, Nat.pos_of_ne_zero _hn⟩

/-- `handle_upload_start(obj, username)`: a falsy filename is ignored;
otherwise the server truncates/creates the file on disk (`open(path,"wb")`),
closing any previous sink of the same user, and records the open sink in
`receiving_files`.  Filenames are modelled as flat names inside the storage
directory, on which the `os.path.basename` sanitisation is the identity;
the disk model never fails to open, so the `error` branch is unreachable. -/
def handle_upload_start (st : ChatServer) (filename : Option String)
    (username : Username) : ChatServer :=
  match filename with
  | none => st
  | some fn =>
    if fn = "" then st
    else
      { st with receiving_files := ainsert username fn st.receiving_files,
                disk := ainsert fn [] st.disk }

/-- `handle_file_chunk(obj, username)`: if the user has an open sink, append
the decoded chunk bytes to the sink's file; otherwise do nothing.  No reply
is ever sent from this handler. -/
def handle_file_chunk (st : ChatServer) (data : Bytes) (username : Username) :
    ChatServer :=
  match alookup username st.receiving_files with
  | none => st
  | some path =>
    { st with
        disk := ainsert path (((alookup path st.disk).getD []) ++ data) st.disk }

/-- `handle_file_end(obj, username)`: pops the user's sink; with no sink
open this is a silent no-op.  Otherwise it closes the sink, reads the file
size from disk at the message's filename, replaces any registry entry with
that filename by the fresh announcement, and broadcasts
`new_file_available` to everyone except the uploader's own connection.
`none` marks an escaped exception (missing filename field, `getsize` on an
absent path, or `self.usernames[username]` on a dead user), which tears the
session down in `handle_client`. -/
def handle_file_end (st : ChatServer) (filename : Option String)
    (username : Username) : Option (ChatServer × List (Conn × Msg)) :=
  match alookup username st.receiving_files with
  | none => some (st, [])
  | some _sinkPath =>
    let st1 := { st with receiving_files := aerase username st.receiving_files }
    match filename with
    | none => none
    | some fn =>
      match alookup fn st1.disk, alookup username st1.usernames with
      | some content, some uploader_conn =>
        let filesize := content.length
        let announcement : FileRecord := ⟨fn, filesize, username⟩
        let st2 := { st1 with
          available_files :=
            st1.available_files.filter (fun f => f.filename ≠ fn)
              ++ [announcement] }
        some (st2,
          broadcast_json st2.clients
            (Msg.newFileAvailable fn filesize username) (some uploader_conn))
      | _, _ => none

/-- `handle_download_request(obj, username, conn)` together with the file
sender task `run_file_sender_to_client`: a falsy filename is ignored; a
present file is streamed to the requester as `file_chunk` records of
`TCP_BUFFER_SIZE` bytes each followed by `file_end`; an absent one yields a
single `error` to the requester. -/
def handle_download_request (st : ChatServer) (filename : Option String)
    (conn : Conn) : List (Conn × Msg) :=
  match filename with
  | none => []
  | some fn =>
    if fn = "" then []
    else
      match alookup fn st.disk with
      | some content =>
        (chunksOf TCP_BUFFER_SIZE content).map (fun c => (conn, Msg.fileChunk c))
          ++ [(conn, Msg.fileEnd fn)]
      | none => [(conn, Msg.error ("File " ++ fn ++ " not found on server."))]

/-- `handle_file_list_request(conn)`: the full registry to the requester. -/
def handle_file_list_request (st : ChatServer) (conn : Conn) : List (Conn × Msg) :=
  send_json conn (Msg.fileListUpdate st.available_files)

/-- A parsed client→server control record, one per JSON line: the dispatch
keys of `handle_json_message`.  `chat.to_` carries the `obj.get("to",
"broadcast")` default already applied; `other` is any record whose `type`
tag matches no recognised kind (including a missing tag). -/
inductive CMsg where
  | chat (to_ : String) (msg : String)
  | command (cmd : String)
  | upload_start (filename : Option String)
  | file_chunk (data : Bytes)
  | file_end (filename : Option String)
  | download_request (filename : Option String)
  | request_file_list
  | other (msg_type : String)
  deriving DecidableEq, Repr

/-- `handle_json_message(obj, username, conn)`: the control-channel
dispatcher.  Returns the new server state and the queued deliveries;
`none` marks an exception escaping the handler (which closes the session).
A `command` other than `/users` and an unrecognised `type` fall through
every branch and do nothing. -/
def handle_json_message (st : ChatServer) (m : CMsg) (username : Username)
    (conn : Conn) : Option (ChatServer × List (Conn × Msg)) :=
  match m with
  | .chat to_ msg =>
    if to_ = "broadcast" then some (st, broadcast_message st msg username)
    else (send_private_message st msg username to_).map (fun out => (st, out))
  | .command cmd =>
    if cmd = "/users" then
      some (st, send_json conn (Msg.userList (st.usernames.map Prod.fst)))
    else some (st, [])
  | .upload_start fn => some (handle_upload_start st fn username, [])
  | .file_chunk data => some (handle_file_chunk st data username, [])
  | .file_end fn => handle_file_end st fn username
  | .download_request fn => some (st, handle_download_request st fn conn)
  | .request_file_list => some (st, handle_file_list_request st conn)
  | .other _ => some (st, [])

/-- One iteration of the per-connection reader loop in `handle_client`: the
line either fails `json.loads` (`none` — the `JSONDecodeError` is logged
and the loop continues) or parses to a record that is dispatched.  The
`Bool` is whether the connection stays open after the line; an outer `none`
is an exception escaping to the session-teardown path. -/
def client_line_step (st : ChatServer) (line : Option CMsg)
    (username : Username) (conn : Conn) :
    Option (ChatServer × List (Conn × Msg) × Bool) :=
  match line with
  | none => some (st, [], true)
  | some m => (handle_json_message st m username conn).map (fun r => (r.1, r.2, true))

/-- Outcome of the username handshake for one connection. -/
structure HandshakeResult where
  state : ChatServer
  accepted : Bool
  closed : Bool
  toConn : List Msg
  broadcasts : List (Conn × Msg)
  deriving DecidableEq, Repr

/-- The handshake of `handle_client`: prompt, read the stripped reply, and
reject (raise `Invalid username`, closing the connection in the `finally`
block with no registration and no broadcast) when the reply is empty or
already claimed; otherwise register the session in both directories, ack,
and broadcast the join notice and the refreshed user list. -/
def handshake (st : ChatServer) (conn : Conn) (reply : String) : HandshakeResult :=
  if reply = "" ∨ (alookup reply st.usernames).isSome then
    { state := st, accepted := false, closed := true,
      toConn := [Msg.raw "Enter username: ",
                 Msg.raw "Username is empty or already taken."],
      broadcasts := [] }
  else
    let st1 := { st with clients := ainsert conn reply st.clients,
                         usernames := ainsert reply conn st.usernames }
    { state := st1, accepted := true, closed := false,
      toConn := [Msg.raw "Enter username: ", Msg.raw "Username accepted. Welcome!"],
      broadcasts :=
        broadcast_message st1 ("--- " ++ reply ++ " has joined the chat. ---") "System"
          ++ broadcast_user_list st1 }

/-- A peer network address as seen by the UDP relay (`(ip, port)` pair, by
identity). -/
abbrev Addr := Nat

/-- The membership-and-forward pass of `run_udp_broadcast_server` over the
already-refreshed membership map: iterate over `list(clients.keys())`; an
entry older than `client_timeout` is deleted and skipped (`continue`);
every surviving entry other than the sender is sent the datagram bytes
verbatim.  Returns the surviving membership map and the deliveries in
iteration order.  Times are integers (seconds). -/
def relay_forward (m : List (Addr × Int)) (addr : Addr) (data : Bytes)
    (current_time client_timeout : Int) :
    List (Addr × Int) × List (Addr × Bytes) :=
  match m with
  | [] => ([], [])
  | (a, t) :: rest =>
    let r := relay_forward rest addr data current_time client_timeout
    if current_time - t > client_timeout then r
    else ((a, t) :: r.1, if a ≠ addr then (a, data) :: r.2 else r.2)

/-- One iteration of the relay loop on receiving datagram `data` from
`addr` at time `now`: `clients[addr] = time.time()` creates or refreshes
the sender's entry, then the membership map is swept with eviction and
fan-out.  The two `time.time()` calls of one iteration are modelled as the
same instant `now`. -/
def relay_step (clients : List (Addr × Int)) (addr : Addr) (data : Bytes)
    (now client_timeout : Int) :
    List (Addr × Int) × List (Addr × Bytes) :=
  relay_forward (ainsert addr now clients) addr data now client_timeout

/-- Which page of the `video_area` stacked widget is current: the
multi-party grid or the presentation layout. -/
inductive View where
  | grid
  | presentation
  deriving DecidableEq, Repr

/-- The client-side state that presenter inference reads and writes:
`video_widgets` maps a remote username to its widget's `frame_type`
attribute (`"none"` until first set, matching `getattr(widget,
'frame_type', 'none')`), in widget-creation (insertion) order;
`presenter_username` is `self.presenter_username`; `view` is the page
selected by `setCurrentWidget`. -/
structure ClientUI where
  video_widgets : List (Username × String)
  presenter_username : Option Username
  view : View
  deriving DecidableEq, Repr

/-- The presenter scan at the top of `rebuild_video_grid`: the first user
in `video_widgets` iteration order whose widget's `frame_type` is
`"screen"` (the loop `break`s at the first hit), or `none`. -/
def find_screen_widget : List (Username × String) → Option Username
  | [] => none
  | (uname, ft) :: rest =>
    if ft = "screen" then some uname else find_screen_widget rest

/-- `rebuild_video_grid`: presenter inference plus layout.  With a presenter
found the presentation view is built and `self.presenter_username` set to
it; otherwise the grid view is built and `self.presenter_username` reset to
`None`.  Only the inferred state is modelled; widget geometry is UI-only. -/
def rebuild_video_grid (ui : ClientUI) : ClientUI :=
  match find_screen_widget ui.video_widgets with
  | some uname =>
    { ui with presenter_username := some uname, view := View.presentation }
  | none =>
    { ui with presenter_username := none, view := View.grid }

/-- `update_remote_feed(username, frame, frame_type)`: ignores the client's
own feed; creates the peer's widget on first sight (failsafe path, with no
`frame_type` attribute yet); computes `needs_rebuild` from the
screen-status transition (starting or ending); stores the new `frame_type`
regardless; and rebuilds the grid when the transition demands it.  Frame
pixels only affect pixmaps, not the modelled state. -/
def update_remote_feed (ui : ClientUI) (selfName username : Username)
    (frame_type : String) : ClientUI :=
  if username = selfName then ui
  else
    let widgets :=
      if (alookup username ui.video_widgets).isSome then ui.video_widgets
      else ui.video_widgets ++ [(username, "none")]
    let old_frame_type := (alookup username widgets).getD "none"
    let needs_rebuild :=
      (frame_type = "screen" ∧ old_frame_type ≠ "screen")
        ∨ (frame_type ≠ "screen" ∧ old_frame_type = "screen")
    let ui1 : ClientUI :=
      { ui with video_widgets := ainsert username frame_type widgets }
    if needs_rebuild then rebuild_video_grid ui1 else ui1

/-- Deliver a sequence of (sender, kind) envelopes to the client, left to
right, as the video receiver raises them to `update_remote_feed`. -/
def process_envelopes (ui : ClientUI) (selfName : Username)
    (envs : List (Username × String)) : ClientUI :=
  envs.foldl (fun u e => update_remote_feed u selfName e.1 e.2) ui

/-- The `frame_type` last stored on `p`'s widget, or `"none"` when the
widget does not exist or has never had the attribute set. -/
def lastKind (ws : List (Username × String)) (p : Username) : String :=
  (alookup p ws).getD "none"

/-- The first widget in creation order whose last stored kind is
`"screen"`, phrased independently of the relay scan. -/
def earliestScreenPeer (ws : List (Username × String)) : Option Username :=
  (ws.find? (fun w => w.2 == "screen")).map Prod.fst

/-- A complete upload by one user, as one control-channel event sequence:
`upload_start{filename}`, the given chunks in order, then
`file_end{filename}`. -/
def upload_session (st : ChatServer) (fn : String) (username : Username)
    (chunks : List Bytes) : Option (ChatServer × List (Conn × Msg)) :=
  let st1 := handle_upload_start st (some fn) username
  let st2 := chunks.foldl (fun s d => handle_file_chunk s d username) st1
  handle_file_end st2 (some fn) username

/-- Local state of one in-flight handshake handler in the interleaving
model: which connection it serves, the username it read, and how far it
has got. -/
inductive HsPhase where
  | atCheck
  | atClaim
  | accepted
  | rejected
  deriving DecidableEq, Repr

/-- One handshake handler thread about to run its check-then-claim
sequence. -/
structure HsThread where
  conn : Conn
  reply : String
  phase : HsPhase
  deriving DecidableEq, Repr

/-- The shared directories touched by the handshake. -/
structure HsShared where
  clients : List (Conn × Username)
  usernames : List (Username × Conn)
  deriving DecidableEq, Repr

/-- One atomic step of a handshake handler under the CPython execution
model: each Python statement runs atomically under the interpreter lock,
but a thread switch may occur between the membership test
(`username in self.usernames`, `atCheck`) and the two registration
assignments (`atClaim`).  A handler whose check fails rejects (closes); a
handler that reaches its claim registers unconditionally. -/
def hsStep (sh : HsShared) (th : HsThread) : HsShared × HsThread :=
  match th.phase with
  | .atCheck =>
    if th.reply = "" ∨ (alookup th.reply sh.usernames).isSome then
      (sh, { th with phase := .rejected })
    else
      (sh, { th with phase := .atClaim })
  | .atClaim =>
    ({ clients := ainsert th.conn th.reply sh.clients,
       usernames := ainsert th.reply th.conn sh.usernames },
     { th with phase := .accepted })
  | _ => (sh, th)

/-- Run two handshake handlers under a schedule: `false` steps the first
thread, `true` the second. -/
def hsRun (sh : HsShared) (t0 t1 : HsThread) (sched : List Bool) :
    HsShared × HsThread × HsThread :=
  match sched with
  | [] => (sh, t0, t1)
  | b :: rest =>
    if b then
      let (sh1, t1') := hsStep sh t1
      hsRun sh1 t0 t1' rest
    else
      let (sh1, t0') := hsStep sh t0
      hsRun sh1 t0' t1 rest

/-! ## Ordered-dictionary lemmas -/

theorem alookup_ainsert_self {α β : Type} [DecidableEq α] (k : α) (v : β)
    (m : List (α × β)) : alookup k (ainsert k v m) = some v := by
  induction m with
  | nil => simp [ainsert, alookup]
  | cons hd tl ih =>
    obtain ⟨a, b⟩ := hd
    by_cases h : a = k
    · subst h; simp [ainsert, alookup]
    · simp [ainsert, alookup, h, ih]

theorem alookup_ainsert_ne {α β : Type} [DecidableEq α] {a k : α} (v : β)
    (m : List (α × β)) (hne : a ≠ k) :
    alookup a (ainsert k v m) = alookup a m := by
  induction m with
  | nil => simp [ainsert, alookup, Ne.symm hne]
  | cons hd tl ih =>
    obtain ⟨c, d⟩ := hd
    by_cases h : c = k
    · subst h
      simp [ainsert, alookup, Ne.symm hne]
    · simp [ainsert, alookup, h, ih]

theorem ainsert_ainsert {α β : Type} [DecidableEq α] (k : α) (x y : β)
    (m : List (α × β)) : ainsert k x (ainsert k y m) = ainsert k x m := by
  induction m with
  | nil => simp [ainsert]
  | cons hd tl ih =>
    obtain ⟨a, b⟩ := hd
    by_cases h : a = k
    · subst h; simp [ainsert]
    · simp [ainsert, h, ih]

theorem ainsert_eq_of_alookup {α β : Type} [DecidableEq α] {k : α} {v : β}
    {m : List (α × β)} (h : alookup k m = some v) : ainsert k v m = m := by
  induction m with
  | nil => simp [alookup] at h
  | cons hd tl ih =>
    obtain ⟨a, b⟩ := hd
    by_cases ha : a = k
    · subst ha
      simp [alookup] at h
      simp [ainsert, h]
    · simp [alookup, ha] at h
      simp [ainsert, ha, ih h]

theorem alookup_eq_none_iff {α β : Type} [DecidableEq α] {k : α}
    (m : List (α × β)) : alookup k m = none ↔ k ∉ m.map Prod.fst := by
  induction m with
  | nil => simp [alookup]
  | cons hd tl ih =>
    obtain ⟨a, b⟩ := hd
    rw [List.map_cons, List.mem_cons]
    by_cases ha : a = k
    · subst ha; simp [alookup]
    · rw [alookup, if_neg ha, ih]
      constructor
      · intro h hk
        rcases hk with hk | hk
        · exact ha hk.symm
        · exact h hk
      · intro h hk
        exact h (Or.inr hk)

theorem keys_ainsert_of_none {α β : Type} [DecidableEq α] {k : α} (v : β)
    {m : List (α × β)} (h : alookup k m = none) :
    (ainsert k v m).map Prod.fst = m.map Prod.fst ++ [k] := by
  induction m with
  | nil => simp [ainsert]
  | cons hd tl ih =>
    obtain ⟨a, b⟩ := hd
    by_cases ha : a = k
    · subst ha; simp [alookup] at h
    · rw [alookup, if_neg ha] at h
      rw [ainsert, if_neg ha, List.map_cons, List.map_cons, ih h,
        List.cons_append]

theorem keys_ainsert_of_some {α β : Type} [DecidableEq α] {k : α} (v : β)
    {m : List (α × β)} {w : β} (h : alookup k m = some w) :
    (ainsert k v m).map Prod.fst = m.map Prod.fst := by
  induction m with
  | nil => simp [alookup] at h
  | cons hd tl ih =>
    obtain ⟨a, b⟩ := hd
    by_cases ha : a = k
    · subst ha; rw [ainsert, if_pos rfl, List.map_cons, List.map_cons]
    · rw [alookup, if_neg ha] at h
      rw [ainsert, if_neg ha, List.map_cons, List.map_cons, ih h]

theorem keys_nodup_ainsert {α β : Type} [DecidableEq α] (k : α) (v : β)
    {m : List (α × β)} (h : (m.map Prod.fst).Nodup) :
    ((ainsert k v m).map Prod.fst).Nodup := by
  cases hk : alookup k m with
  | none =>
    rw [keys_ainsert_of_none v hk]
    have hnk : k ∉ m.map Prod.fst := (alookup_eq_none_iff m).mp hk
    refine List.nodup_append.mpr ⟨h, List.nodup_singleton k, fun x hx hxk => ?_⟩
    rw [List.mem_singleton] at hxk
    exact hnk (hxk ▸ hx)
  | some w =>
    rwa [keys_ainsert_of_some v hk]

theorem alookup_aerase_self {α β : Type} [DecidableEq α] (k : α)
    {m : List (α × β)} (h : (m.map Prod.fst).Nodup) :
    alookup k (aerase k m) = none := by
  induction m with
  | nil => simp [aerase, alookup]
  | cons hd tl ih =>
    obtain ⟨a, b⟩ := hd
    rw [List.map_cons] at h
    obtain ⟨h1, h2⟩ := List.nodup_cons.mp h
    by_cases ha : a = k
    · subst ha
      rw [aerase, if_pos rfl]
      exact (alookup_eq_none_iff tl).mpr h1
    · rw [aerase, if_neg ha, alookup, if_neg ha]
      exact ih h2

theorem mem_ainsert_of_ne {α β : Type} [DecidableEq α] {a k : α} {b v : β}
    (m : List (α × β)) (hne : a ≠ k) :
    (a, b) ∈ ainsert k v m ↔ (a, b) ∈ m := by
  induction m with
  | nil => simp [ainsert, hne]
  | cons hd tl ih =>
    obtain ⟨c, d⟩ := hd
    by_cases hc : c = k
    · subst hc
      rw [ainsert, if_pos rfl, List.mem_cons, List.mem_cons]
      constructor
      · intro h
        rcases h with h | h
        · exact absurd (congrArg Prod.fst h) hne
        · exact Or.inr h
      · intro h
        rcases h with h | h
        · exact absurd (congrArg Prod.fst h) hne
        · exact Or.inr h
    · rw [ainsert, if_neg hc, List.mem_cons, List.mem_cons, ih]

theorem self_mem_ainsert {α β : Type} [DecidableEq α] (k : α) (v : β)
    (m : List (α × β)) : (k, v) ∈ ainsert k v m := by
  induction m with
  | nil => simp [ainsert]
  | cons hd tl ih =>
    obtain ⟨a, b⟩ := hd
    by_cases ha : a = k
    · subst ha; simp [ainsert]
    · rw [ainsert, if_neg ha]
      exact List.mem_cons_of_mem _ ih

theorem alookup_of_mem_nodup {α β : Type} [DecidableEq α] {a : α} {b : β}
    {m : List (α × β)} (h : (m.map Prod.fst).Nodup) (hm : (a, b) ∈ m) :
    alookup a m = some b := by
  induction m with
  | nil => simp at hm
  | cons hd tl ih =>
    obtain ⟨c, d⟩ := hd
    rw [List.map_cons] at h
    obtain ⟨h1, h2⟩ := List.nodup_cons.mp h
    rcases List.mem_cons.mp hm with hm' | hm'
    · rw [← hm']
      simp [alookup]
    · have hca : ¬ c = a := by
        intro hca
        subst hca
        exact h1 (List.mem_map.mpr ⟨(c, b), hm', rfl⟩)
      rw [alookup, if_neg hca]
      exact ih h2 hm'

theorem alookup_append_right {α β : Type} [DecidableEq α] {k : α}
    {xs : List (α × β)} (ys : List (α × β)) (h : alookup k xs = none) :
    alookup k (xs ++ ys) = alookup k ys := by
  induction xs with
  | nil => simp
  | cons hd tl ih =>
    obtain ⟨a, b⟩ := hd
    by_cases ha : a = k
    · subst ha; simp [alookup] at h
    · rw [alookup, if_neg ha] at h
      rw [List.cons_append, alookup, if_neg ha]
      exact ih h


/-- In a duplicate-key-free dictionary, the entries whose key equals a
present key `c` form exactly one singleton. -/
theorem filter_fst_eq_of_nodup {α β : Type} [DecidableEq α] {m : List (α × β)}
    {c : α} (hnd : (m.map Prod.fst).Nodup) (hc : c ∈ m.map Prod.fst) :
    ∃ b, (c, b) ∈ m ∧ m.filter (fun p => p.1 = c) = [(c, b)] := by
  induction m with
  | nil => simp at hc
  | cons hd tl ih =>
    obtain ⟨a, b⟩ := hd
    rw [List.map_cons] at hnd hc
    obtain ⟨h1, h2⟩ := List.nodup_cons.mp hnd
    by_cases hac : a = c
    · subst hac
      refine ⟨b, List.mem_cons_self _ _, ?_⟩
      have htl : tl.filter (fun p => p.1 = a) = [] := by
        rw [List.filter_eq_nil_iff]
        intro p hp hpa
        exact h1 (List.mem_map.mpr ⟨p, hp, of_decide_eq_true hpa⟩)
      simp [List.filter_cons, htl]
    · have hc' : c ∈ tl.map Prod.fst := by
        rcases List.mem_cons.mp hc with h | h
        · exact absurd h.symm hac
        · exact h
      obtain ⟨b', hb1, hb2⟩ := ih h2 hc'
      exact ⟨b', List.mem_cons_of_mem _ hb1, by simp [List.filter_cons, hac, hb2]⟩

/-! ## Claim theorems: chat broadcast (C1) -/

/-- C1, counterexample: with live sessions `u` (conn 0) and `v` (conn 1), a
broadcast chat from `u` is delivered back to `u`'s own connection: the
dispatcher calls `broadcast_message`, which broadcasts with no excluded
connection, so the claim that the message is never delivered back to the
sender is false. -/
theorem chat_broadcast_echoes_to_sender :
    handle_json_message
        ⟨[(0, "u"), (1, "v")], [("u", 0), ("v", 1)], [], [], []⟩
        (CMsg.chat "broadcast" "hi") "u" 0
      = some (⟨[(0, "u"), (1, "v")], [("u", 0), ("v", 1)], [], [], []⟩,
          [(0, Msg.chatMessage "u" "hi" false),
           (1, Msg.chatMessage "u" "hi" false)]) := by
  decide

/-- C1 (amended): a broadcast chat from user U is delivered as a
`chat_message` to every live session exactly once — including U's own
session, which receives the echo; nobody is excluded from the fan-out. -/
theorem chat_broadcast_delivers_to_all (st : ChatServer) (msg : String)
    (uname : Username) (conn : Conn) :
    handle_json_message st (CMsg.chat "broadcast" msg) uname conn
      = some (st, st.clients.map (fun p => (p.1, Msg.chatMessage uname msg false)))
    ∧ ((st.clients.map Prod.fst).Nodup →
       ∀ c ∈ st.clients.map Prod.fst,
         (st.clients.map (fun p => (p.1, Msg.chatMessage uname msg false))).filter
             (fun q => q.1 = c)
           = [(c, Msg.chatMessage uname msg false)]) := by
  constructor
  · simp [handle_json_message, broadcast_message, broadcast_json]
  · intro hnd c hc
    obtain ⟨b, hmem, hfilter⟩ := filter_fst_eq_of_nodup hnd hc
    rw [List.filter_map]
    have hpred : ((fun q : Conn × Msg => decide (q.1 = c)) ∘
        (fun p : Conn × Username => (p.1, Msg.chatMessage uname msg false)))
        = (fun p : Conn × Username => decide (p.1 = c)) := rfl
    rw [hpred, hfilter]
    rfl

/-- C1 witness: instantiating the fan-out theorem on a two-session state
shows the delivery list and the exactly-once count concretely. -/
theorem chat_broadcast_delivers_to_all_witness :
    handle_json_message
        ⟨[(0, "u"), (1, "v")], [("u", 0), ("v", 1)], [], [], []⟩
        (CMsg.chat "broadcast" "hey") "u" 0
      = some (⟨[(0, "u"), (1, "v")], [("u", 0), ("v", 1)], [], [], []⟩,
          [(0, Msg.chatMessage "u" "hey" false),
           (1, Msg.chatMessage "u" "hey" false)])
    ∧ (([(0, "u"), (1, "v")] : List (Conn × Username)).map
          (fun p => (p.1, Msg.chatMessage "u" "hey" false))).filter
            (fun q => q.1 = 1)
        = [(1, Msg.chatMessage "u" "hey" false)] := by
  have h := chat_broadcast_delivers_to_all
    ⟨[(0, "u"), (1, "v")], [("u", 0), ("v", 1)], [], [], []⟩ "hey" "u" 0
  exact ⟨h.1, h.2 (by decide) 1 (by decide)⟩

/-! ## Claim theorems: handshake (C7) and record handling (C8, C10) -/

/-- C7: a handshake whose username reply is empty or already claimed is
rejected — the connection is closed, no session is registered, no join
notice or user-list broadcast goes out, and the directories are untouched;
a non-empty unclaimed reply is accepted and registered in both the
`clients` and `usernames` directories. -/
theorem handshake_accepts_iff_valid (st : ChatServer) (conn : Conn)
    (reply : String) :
    ((reply = "" ∨ (alookup reply st.usernames).isSome) →
      handshake st conn reply =
        { state := st, accepted := false, closed := true,
          toConn := [Msg.raw "Enter username: ",
                     Msg.raw "Username is empty or already taken."],
          broadcasts := [] })
    ∧ (reply ≠ "" → alookup reply st.usernames = none →
      (handshake st conn reply).accepted = true
      ∧ (handshake st conn reply).closed = false
      ∧ (handshake st conn reply).state.clients = ainsert conn reply st.clients
      ∧ (handshake st conn reply).state.usernames = ainsert reply conn st.usernames
      ∧ alookup reply (handshake st conn reply).state.usernames = some conn) := by
  constructor
  · intro h
    rw [handshake, if_pos h]
  · intro h1 h2
    have hcond : ¬(reply = "" ∨ (alookup reply st.usernames).isSome) := by
      simp [h1, h2]
    rw [handshake, if_neg hcond]
    exact ⟨rfl, rfl, rfl, rfl, alookup_ainsert_self _ _ _⟩

/-- C7 witness: on an empty server, the empty reply is rejected with the
connection closed and no broadcast, while the reply `alice` is accepted
and registered. -/
theorem handshake_accepts_iff_valid_witness :
    handshake ⟨[], [], [], [], []⟩ 5 "" =
      { state := ⟨[], [], [], [], []⟩, accepted := false, closed := true,
        toConn := [Msg.raw "Enter username: ",
                   Msg.raw "Username is empty or already taken."],
        broadcasts := [] }
    ∧ (handshake ⟨[], [], [], [], []⟩ 5 "alice").accepted = true
    ∧ alookup "alice" (handshake ⟨[], [], [], [], []⟩ 5 "alice").state.usernames
        = some 5 := by
  have h1 := (handshake_accepts_iff_valid ⟨[], [], [], [], []⟩ 5 "").1
    (Or.inl rfl)
  have h2 := (handshake_accepts_iff_valid ⟨[], [], [], [], []⟩ 5 "alice").2
    (by decide) rfl
  exact ⟨h1, h2.1, h2.2.2.2.2⟩

/-- C8: an unparsable control line (failed `json.loads`) and a record whose
`type` tag matches no recognised kind are both logged-and-skipped no-ops —
the server state is unchanged in every component, no reply of any sort is
produced, and the connection stays open for subsequent records. -/
theorem malformed_or_unknown_record_is_noop (st : ChatServer)
    (username : Username) (conn : Conn) (t : String) :
    client_line_step st none username conn = some (st, [], true)
    ∧ client_line_step st (some (CMsg.other t)) username conn
        = some (st, [], true) := by
  exact ⟨rfl, rfl⟩

/-- C10: a `file_chunk` or `file_end` from a user with no open upload sink
is a silent no-op: the state (file registry, disk, directories) is
unchanged, no message — not even an error — is queued for any session, and
the connection stays open. -/
theorem orphan_chunk_and_end_are_noops (st : ChatServer) (data : Bytes)
    (fn : Option String) (username : Username) (conn : Conn)
    (h : alookup username st.receiving_files = none) :
    client_line_step st (some (CMsg.file_chunk data)) username conn
        = some (st, [], true)
    ∧ client_line_step st (some (CMsg.file_end fn)) username conn
        = some (st, [], true) := by
  constructor
  · simp [client_line_step, handle_json_message, handle_file_chunk, h]
  · simp [client_line_step, handle_json_message, handle_file_end, h]

/-- C10 witness: a user with no sink sends an orphan chunk and an orphan
`file_end` against a server with one live session; both leave the state
and the wire untouched. -/
theorem orphan_chunk_and_end_are_noops_witness :
    client_line_step ⟨[(0, "u")], [("u", 0)], [], [], []⟩
        (some (CMsg.file_chunk [1, 2, 3])) "u" 0
      = some (⟨[(0, "u")], [("u", 0)], [], [], []⟩, [], true)
    ∧ client_line_step ⟨[(0, "u")], [("u", 0)], [], [], []⟩
        (some (CMsg.file_end (some "a.txt"))) "u" 0
      = some (⟨[(0, "u")], [("u", 0)], [], [], []⟩, [], true) :=
  orphan_chunk_and_end_are_noops ⟨[(0, "u")], [("u", 0)], [], [], []⟩
    [1, 2, 3] (some "a.txt") "u" 0 rfl

/-! ## Claim theorems: media relay (C3) -/

/-- Closed form of the membership-and-forward pass: the survivors are the
entries within the timeout, and the deliveries carry the datagram verbatim
to every survivor other than the sender, in iteration order. -/
theorem relay_forward_eq (m : List (Addr × Int)) (addr : Addr) (data : Bytes)
    (now client_timeout : Int) :
    relay_forward m addr data now client_timeout =
      (m.filter (fun p => now - p.2 ≤ client_timeout),
       (m.filter (fun p => now - p.2 ≤ client_timeout ∧ p.1 ≠ addr)).map
         (fun p => (p.1, data))) := by
  induction m with
  | nil => rfl
  | cons hd tl ih =>
    obtain ⟨a, t⟩ := hd
    rw [relay_forward, ih]
    by_cases h : now - t > client_timeout
    · rw [if_pos h, List.filter_cons, List.filter_cons,
        if_neg (by simpa using not_le.mpr h),
        if_neg (by simp [not_le.mpr h])]
    · rw [if_neg h, Prod.mk.injEq]
      constructor
      · rw [List.filter_cons, if_pos (by simpa using not_lt.mp h)]
      · by_cases ha : a = addr
        · rw [if_neg (by simpa using ha), List.filter_cons,
            if_neg (by simp [ha])]
        · rw [if_pos ha, List.filter_cons,
            if_pos (by simp [not_lt.mp h, ha]), List.map_cons]

/-- C3: on a datagram from `addr` at time `now`, the relay (1) keeps the
refreshed membership entry of `addr` among the survivors, (2) keeps
exactly the entries whose age is within the stream timeout, (3) forwards
the received bytes verbatim to every surviving address other than `addr`,
(4) never forwards back to the sender, and (5) delivers nothing to a peer
whose last activity is older than the timeout. -/
theorem relay_step_spec (clients : List (Addr × Int)) (addr : Addr)
    (data : Bytes) (now client_timeout : Int)
    (htimeout : 0 ≤ client_timeout)
    (hnd : (clients.map Prod.fst).Nodup) :
    (addr, now) ∈ (relay_step clients addr data now client_timeout).1
    ∧ (relay_step clients addr data now client_timeout).1
        = (ainsert addr now clients).filter
            (fun p => now - p.2 ≤ client_timeout)
    ∧ (relay_step clients addr data now client_timeout).2
        = ((ainsert addr now clients).filter
            (fun p => now - p.2 ≤ client_timeout ∧ p.1 ≠ addr)).map
              (fun p => (p.1, data))
    ∧ (∀ b, (addr, b) ∉ (relay_step clients addr data now client_timeout).2)
    ∧ (∀ a t, (a, t) ∈ clients → client_timeout < now - t →
        ∀ b, (a, b) ∉ (relay_step clients addr data now client_timeout).2) := by
  rw [relay_step, relay_forward_eq]
  refine ⟨?_, rfl, rfl, ?_, ?_⟩
  · exact List.mem_filter.mpr
      ⟨self_mem_ainsert addr now clients, by simpa using htimeout⟩
  · intro b hb
    obtain ⟨p, hp, hpb⟩ := List.mem_map.mp hb
    have hne : p.1 ≠ addr := by
      have := (List.mem_filter.mp hp).2
      simp at this
      exact this.2
    exact hne (congrArg Prod.fst hpb)
  · intro a t hmem hstale b hb
    obtain ⟨p, hp, hpb⟩ := List.mem_map.mp hb
    obtain ⟨hp1, hp2⟩ := List.mem_filter.mp hp
    have hfresh : now - p.2 ≤ client_timeout := by
      simp at hp2
      omega
    have hpaddr : p.1 ≠ addr := by
      simp at hp2
      exact hp2.2
    have hpa : p.1 = a := congrArg Prod.fst hpb
    have hmem' : (a, p.2) ∈ clients := by
      have hmem0 : (p.1, p.2) ∈ ainsert addr now clients := hp1
      rw [hpa] at hmem0 hpaddr
      exact (mem_ainsert_of_ne clients hpaddr).mp hmem0
    have ht : t = p.2 := by
      have h1 := alookup_of_mem_nodup hnd hmem
      have h2 := alookup_of_mem_nodup hnd hmem'
      rw [h1] at h2
      exact Option.some_inj.mp h2
    omega

/-- C3 witness: peer 7 (last seen at 0) is staler than the 50-second
timeout when peer 9 sends at time 100, so 7 is evicted and gets nothing;
the fresh peer 8 gets the bytes; the sender 9 is refreshed and excluded. -/
theorem relay_step_spec_witness :
    (9, 100) ∈ (relay_step [(7, 0), (8, 80)] 9 [1, 2] 100 50).1
    ∧ (∀ b, (9, b) ∉ (relay_step [(7, 0), (8, 80)] 9 [1, 2] 100 50).2)
    ∧ (∀ b, (7, b) ∉ (relay_step [(7, 0), (8, 80)] 9 [1, 2] 100 50).2)
    ∧ (relay_step [(7, 0), (8, 80)] 9 [1, 2] 100 50).2 = [(8, [1, 2])] := by
  have h := relay_step_spec [(7, 0), (8, 80)] 9 [1, 2] 100 50
    (by decide) (by decide)
  exact ⟨h.1, h.2.2.2.1, fun b => h.2.2.2.2 7 0 (by decide) (by decide) b,
    by decide⟩

/-! ## Claim theorems: file upload (C2) and registry uniqueness (C4) -/

/-- A chunk arriving while the user's sink is open at `fn` with `acc`
bytes on disk appends the decoded data to that file and changes nothing
else. -/
theorem handle_file_chunk_open (st : ChatServer) (fn : String)
    (acc d : Bytes) (username : Username)
    (hs : alookup username st.receiving_files = some fn)
    (hd : alookup fn st.disk = some acc) :
    handle_file_chunk st d username
      = { st with disk := ainsert fn (acc ++ d) st.disk } := by
  simp [handle_file_chunk, hs, hd]

/-- Folding a chunk sequence into an open sink appends the concatenation
of the chunks to the sink's file. -/
theorem foldl_chunks (username : Username) (fn : String) :
    ∀ (chunks : List Bytes) (st : ChatServer) (acc : Bytes),
      alookup username st.receiving_files = some fn →
      alookup fn st.disk = some acc →
      chunks.foldl (fun s d => handle_file_chunk s d username) st
        = { st with disk := ainsert fn (acc ++ chunks.flatten) st.disk } := by
  intro chunks
  induction chunks with
  | nil =>
    intro st acc hs hd
    rw [List.foldl_nil, List.flatten_nil, List.append_nil,
      ainsert_eq_of_alookup hd]
  | cons d ds ih =>
    intro st acc hs hd
    rw [List.foldl_cons, handle_file_chunk_open st fn acc d username hs hd,
      ih { st with disk := ainsert fn (acc ++ d) st.disk } (acc ++ d) hs
        (alookup_ainsert_self fn (acc ++ d) st.disk)]
    rw [List.flatten_cons]
    simp only [ainsert_ainsert, List.append_assoc]

/-- C2: a completed upload — `upload_start{fn}`, chunks concatenating to
`chunks.flatten`, then `file_end{fn}` — by a live user closes and removes
the sink, stores exactly the received bytes on disk, replaces any registry
entry with that filename by a record of the size read back from disk, and
broadcasts exactly one `new_file_available{fn, size}` to each live session
other than the uploader and none to the uploader. -/
theorem upload_session_spec (st : ChatServer) (fn : String)
    (username : Username) (uc : Conn) (chunks : List Bytes)
    (hfn : fn ≠ "")
    (huser : alookup username st.usernames = some uc)
    (hrf : (st.receiving_files.map Prod.fst).Nodup) :
    ∃ st',
      upload_session st fn username chunks
        = some (st',
            (st.clients.filter (fun p => p.1 ≠ uc)).map
              (fun p => (p.1, Msg.newFileAvailable fn chunks.flatten.length username)))
      ∧ st'.available_files
          = st.available_files.filter (fun f => f.filename ≠ fn)
              ++ [⟨fn, chunks.flatten.length, username⟩]
      ∧ alookup username st'.receiving_files = none
      ∧ alookup fn st'.disk = some chunks.flatten
      ∧ st'.clients = st.clients
      ∧ (∀ m, (uc, m) ∉
          (st.clients.filter (fun p => p.1 ≠ uc)).map
            (fun p => (p.1, Msg.newFileAvailable fn chunks.flatten.length username)))
      ∧ ((st.clients.map Prod.fst).Nodup →
         ∀ c ∈ st.clients.map Prod.fst, c ≠ uc →
           ((st.clients.filter (fun p => p.1 ≠ uc)).map
              (fun p => (p.1, Msg.newFileAvailable fn chunks.flatten.length username))).filter
             (fun q => q.1 = c)
           = [(c, Msg.newFileAvailable fn chunks.flatten.length username)]) := by
  have hstart : handle_upload_start st (some fn) username
      = { st with receiving_files := ainsert username fn st.receiving_files,
                  disk := ainsert fn [] st.disk } := by
    simp [handle_upload_start, hfn]
  have hfold := foldl_chunks username fn chunks
    { st with receiving_files := ainsert username fn st.receiving_files,
              disk := ainsert fn [] st.disk }
    [] (alookup_ainsert_self username fn st.receiving_files)
    (alookup_ainsert_self fn [] st.disk)
  rw [List.nil_append] at hfold
  refine ⟨{ st with
      receiving_files := aerase username (ainsert username fn st.receiving_files),
      disk := ainsert fn chunks.flatten st.disk,
      available_files :=
        st.available_files.filter (fun f => f.filename ≠ fn)
          ++ [⟨fn, chunks.flatten.length, username⟩] }, ?_, rfl, ?_, ?_, rfl, ?_, ?_⟩
  · rw [upload_session, hstart, hfold, handle_file_end]
    simp only [alookup_ainsert_self, ainsert_ainsert, huser]
    have hsends : broadcast_json st.clients
        (Msg.newFileAvailable fn chunks.flatten.length username) (some uc)
        = (st.clients.filter (fun p => p.1 ≠ uc)).map
            (fun p => (p.1, Msg.newFileAvailable fn chunks.flatten.length username)) := by
      rw [broadcast_json]
      congr 1
      apply List.filter_congr
      intro p _hp
      simp
    rw [hsends]
  · exact alookup_aerase_self username (keys_nodup_ainsert username fn hrf)
  · exact alookup_ainsert_self fn chunks.flatten st.disk
  · intro m hm
    obtain ⟨p, hp, hpb⟩ := List.mem_map.mp hm
    have hne : p.1 ≠ uc := by
      have := (List.mem_filter.mp hp).2
      simpa using this
    exact hne (congrArg Prod.fst hpb)
  · intro hnd c hc hcuc
    obtain ⟨b, hmem, hfilter⟩ := filter_fst_eq_of_nodup hnd hc
    rw [List.filter_map]
    have hpred : ((fun q : Conn × Msg => decide (q.1 = c)) ∘
        (fun p : Conn × Username =>
          (p.1, Msg.newFileAvailable fn chunks.flatten.length username)))
        = (fun p : Conn × Username => decide (p.1 = c)) := rfl
    rw [hpred]
    have hcomm : (st.clients.filter (fun p => p.1 ≠ uc)).filter
        (fun p => p.1 = c) = st.clients.filter (fun p => p.1 = c) := by
      rw [List.filter_filter]
      apply List.filter_congr
      intro p _hp
      by_cases hpc : p.1 = c
      · simp [hpc, hcuc]
      · simp [hpc]
    rw [hcomm, hfilter]
    rfl

/-- C2 witness: the spec's example — uploading "a.txt" as two chunks
totalling 10 bytes from user `u` (conn 0) with one other live session `v`
(conn 1) yields exactly one `new_file_available{a.txt, 10}` to conn 1, a
single registry record, and a closed sink. -/
theorem upload_session_spec_witness :
    ∃ st',
      upload_session ⟨[(0, "u"), (1, "v")], [("u", 0), ("v", 1)], [], [], []⟩
          "a.txt" "u" [[1, 2, 3, 4, 5], [6, 7, 8, 9, 10]]
        = some (st', [(1, Msg.newFileAvailable "a.txt" 10 "u")])
      ∧ st'.available_files = [⟨"a.txt", 10, "u"⟩]
      ∧ alookup "u" st'.receiving_files = none := by
  obtain ⟨st', h1, h2, h3, -, -, -, -⟩ :=
    upload_session_spec ⟨[(0, "u"), (1, "v")], [("u", 0), ("v", 1)], [], [], []⟩
      "a.txt" "u" 0 [[1, 2, 3, 4, 5], [6, 7, 8, 9, 10]]
      (by decide) rfl (by decide)
  refine ⟨st', ?_, ?_, h3⟩
  · rw [h1]
    exact congrArg (fun l => some (st', l)) (by decide)
  · rw [h2]
    decide

/-- C4: when `file_end{fn}` completes with an open sink (the re-upload
path), the registry drops every previous record named `fn` and appends the
fresh one, so filenames stay unique, the only record named `fn` is the new
one, and a subsequent `request_file_list` returns exactly that registry. -/
theorem file_end_registry_unique (st : ChatServer) (fn path : String)
    (username : Username) (uc c : Conn) (content : Bytes)
    (hs : alookup username st.receiving_files = some path)
    (hd : alookup fn st.disk = some content)
    (hu : alookup username st.usernames = some uc)
    (hnodup : (st.available_files.map (fun f => f.filename)).Nodup) :
    ∃ st' out,
      handle_file_end st (some fn) username = some (st', out)
      ∧ st'.available_files
          = st.available_files.filter (fun f => f.filename ≠ fn)
              ++ [⟨fn, content.length, username⟩]
      ∧ (st'.available_files.map (fun f => f.filename)).Nodup
      ∧ st'.available_files.filter (fun f => f.filename = fn)
          = [⟨fn, content.length, username⟩]
      ∧ handle_file_list_request st' c
          = [(c, Msg.fileListUpdate st'.available_files)] := by
  refine ⟨{ st with
      receiving_files := aerase username st.receiving_files,
      available_files :=
        st.available_files.filter (fun f => f.filename ≠ fn)
          ++ [⟨fn, content.length, username⟩] },
    broadcast_json st.clients
      (Msg.newFileAvailable fn content.length username) (some uc),
    ?_, rfl, ?_, ?_, rfl⟩
  · rw [handle_file_end]
    simp only [hs, hd, hu]
  · show ((st.available_files.filter (fun f : FileRecord => f.filename ≠ fn)
        ++ ([⟨fn, content.length, username⟩] : List FileRecord)).map
          (fun f => f.filename)).Nodup
    have hsub : List.Sublist
        (st.available_files.filter (fun f => f.filename ≠ fn))
        st.available_files := List.filter_sublist _
    have h1 : ((st.available_files.filter (fun f => f.filename ≠ fn)).map
        (fun f => f.filename)).Nodup :=
      List.Nodup.sublist (hsub.map _) hnodup
    have h2 : fn ∉ (st.available_files.filter
        (fun f => f.filename ≠ fn)).map (fun f => f.filename) := by
      intro hmem
      obtain ⟨f, hf, hffn⟩ := List.mem_map.mp hmem
      have hf2 := (List.mem_filter.mp hf).2
      simp at hf2
      exact hf2 hffn
    simp only [List.map_append, List.map_cons, List.map_nil]
    refine List.nodup_append.mpr
      ⟨h1, List.nodup_singleton _, fun x hx hxk => ?_⟩
    rw [List.mem_singleton] at hxk
    exact h2 (hxk ▸ hx)
  · show (st.available_files.filter (fun f : FileRecord => f.filename ≠ fn)
        ++ ([⟨fn, content.length, username⟩] : List FileRecord)).filter
          (fun f => f.filename = fn)
      = [⟨fn, content.length, username⟩]
    rw [List.filter_append]
    have hleft : (st.available_files.filter
        (fun f => f.filename ≠ fn)).filter (fun f => f.filename = fn)
      = [] := by
      rw [List.filter_eq_nil_iff]
      intro f hf
      have hf2 := (List.mem_filter.mp hf).2
      simp at hf2 ⊢
      exact hf2
    rw [hleft, List.nil_append]
    simp [List.filter_cons]

/-- C4 witness: user `v` re-uploads "a.txt" (3 new bytes) over an existing
5-byte registry record from `u`; after `file_end` the registry holds only
the newest record and `request_file_list` returns exactly it. -/
theorem file_end_registry_unique_witness :
    ∃ st' out,
      handle_file_end
          ⟨[(0, "u"), (1, "v")], [("u", 0), ("v", 1)], [("v", "a.txt")],
           [⟨"a.txt", 5, "u"⟩], [("a.txt", [9, 9, 9])]⟩
          (some "a.txt") "v"
        = some (st', out)
      ∧ st'.available_files = [⟨"a.txt", 3, "v"⟩]
      ∧ st'.available_files.filter (fun f => f.filename = "a.txt")
          = [⟨"a.txt", 3, "v"⟩] := by
  obtain ⟨st', out, h1, h2, -, h4, -⟩ :=
    file_end_registry_unique
      ⟨[(0, "u"), (1, "v")], [("u", 0), ("v", 1)], [("v", "a.txt")],
       [⟨"a.txt", 5, "u"⟩], [("a.txt", [9, 9, 9])]⟩
      "a.txt" "a.txt" "v" 1 0 [9, 9, 9] rfl rfl (by decide) (by decide)
  refine ⟨st', out, h1, ?_, h4⟩
  rw [h2]
  decide

/-! ## Claim theorems: presenter inference (C5, C6) -/

/-- The presenter scan equals the first widget in creation order whose
last kind is `"screen"`. -/
theorem find_screen_widget_eq (l : List (Username × String)) :
    find_screen_widget l = earliestScreenPeer l := by
  induction l with
  | nil => rfl
  | cons hd tl ih =>
    obtain ⟨u, ft⟩ := hd
    by_cases h : ft = "screen"
    · simp [find_screen_widget, earliestScreenPeer, List.find?, h]
    · have hbeq : (ft == "screen") = false := by
        simp [h]
      simp only [find_screen_widget, earliestScreenPeer, List.find?, if_neg h,
        hbeq]
      rw [ih, earliestScreenPeer]

/-- `rebuild_video_grid` sets `presenter_username` to the presenter
scan's result. -/
theorem rebuild_presenter (ui : ClientUI) :
    (rebuild_video_grid ui).presenter_username
      = find_screen_widget ui.video_widgets := by
  rw [rebuild_video_grid]
  cases h : find_screen_widget ui.video_widgets <;> simp [h]

/-- `rebuild_video_grid` never changes the widget map. -/
theorem rebuild_widgets (ui : ClientUI) :
    (rebuild_video_grid ui).video_widgets = ui.video_widgets := by
  rw [rebuild_video_grid]
  cases h : find_screen_widget ui.video_widgets <;> simp [h]

/-- C5: delivering the kind sequence [webcam, webcam, screen, screen,
webcam] from the single peer P, the client flags P as presenter (and
switches to the presentation view) from the first screen envelope onward,
and stops flagging P (reverting to the grid view) from the later webcam
envelope onward. -/
theorem presenter_follows_screen_sequence :
    (process_envelopes ⟨[], none, View.grid⟩ "me"
        [("P", "webcam")]).presenter_username = none
    ∧ (process_envelopes ⟨[], none, View.grid⟩ "me"
        [("P", "webcam"), ("P", "webcam")]).presenter_username = none
    ∧ (process_envelopes ⟨[], none, View.grid⟩ "me"
        [("P", "webcam"), ("P", "webcam"),
         ("P", "screen")]).presenter_username = some "P"
    ∧ (process_envelopes ⟨[], none, View.grid⟩ "me"
        [("P", "webcam"), ("P", "webcam"), ("P", "screen")]).view
        = View.presentation
    ∧ (process_envelopes ⟨[], none, View.grid⟩ "me"
        [("P", "webcam"), ("P", "webcam"), ("P", "screen"),
         ("P", "screen")]).presenter_username = some "P"
    ∧ (process_envelopes ⟨[], none, View.grid⟩ "me"
        [("P", "webcam"), ("P", "webcam"), ("P", "screen"), ("P", "screen"),
         ("P", "webcam")]).presenter_username = none
    ∧ (process_envelopes ⟨[], none, View.grid⟩ "me"
        [("P", "webcam"), ("P", "webcam"), ("P", "screen"), ("P", "screen"),
         ("P", "webcam")]).view = View.grid := by
  decide

/-- C6, counterexample: peers P then Q both send kind screen; Q's screen
envelope is the most recently received, yet the client keeps P — the first
widget in creation order whose last kind is screen — as presenter, so the
most-recently-received rule is false. -/
theorem presenter_not_most_recent :
    (process_envelopes ⟨[], none, View.grid⟩ "me"
        [("P", "screen"), ("Q", "screen")]).presenter_username = some "P"
    ∧ some ("P" : Username) ≠ some ("Q" : Username) := by
  decide

/-- C6 (amended): whenever an envelope changes a peer's screen status (so
the grid is rebuilt), the presenter becomes the first peer in widget
creation order whose last received kind is screen — reception recency
plays no role in the arbitration. -/
theorem presenter_is_earliest_screen_peer (ws : List (Username × String))
    (pres : Option Username) (v : View) (selfName p : Username) (ft : String)
    (hp : p ≠ selfName)
    (htrans : (ft = "screen" ∧ lastKind ws p ≠ "screen")
      ∨ (ft ≠ "screen" ∧ lastKind ws p = "screen")) :
    (update_remote_feed ⟨ws, pres, v⟩ selfName p ft).presenter_username
      = earliestScreenPeer
          (update_remote_feed ⟨ws, pres, v⟩ selfName p ft).video_widgets := by
  have hlast : (alookup p
      (if (alookup p ws).isSome then ws else ws ++ [(p, "none")])).getD "none"
      = lastKind ws p := by
    cases hw : alookup p ws with
    | some k => simp [hw, lastKind]
    | none => simp [hw, lastKind, alookup_append_right [(p, "none")] hw, alookup]
  simp only [update_remote_feed, if_neg hp]
  rw [hlast, if_pos htrans, rebuild_presenter, rebuild_widgets,
    find_screen_widget_eq]

/-- C6 witness: P's widget (kind screen) precedes Q's; Q then also sends
screen, and the rebuilt presenter is the earliest screen widget. -/
theorem presenter_is_earliest_screen_peer_witness :
    (update_remote_feed
        ⟨[("P", "screen"), ("Q", "none")], some "P", View.presentation⟩
        "me" "Q" "screen").presenter_username
      = earliestScreenPeer
          (update_remote_feed
            ⟨[("P", "screen"), ("Q", "none")], some "P", View.presentation⟩
            "me" "Q" "screen").video_widgets :=
  presenter_is_earliest_screen_peer [("P", "screen"), ("Q", "none")]
    (some "P") View.presentation "me" "Q" "screen" (by decide)
    (Or.inl ⟨rfl, by decide⟩)

/-! ## Claim theorems: concurrent handshake (C9) -/

/-- C9: the check-then-claim sequence is not atomic — `handle_client` takes
no lock between the membership test on `self.usernames` and the two
registration assignments.  Under the interleaving in which both handlers
pass their check before either claims (first conjunct), both connections
are accepted and registered under the same username: `clients` holds two
sessions named `alice` and `usernames` ends up pointing at the second
connection, violating username uniqueness.  Only the serialized schedule
(second conjunct) produces the exactly-one-acceptance outcome the claim
requires. -/
theorem handshake_race_double_accept :
    hsRun ⟨[], []⟩ ⟨0, "alice", HsPhase.atCheck⟩ ⟨1, "alice", HsPhase.atCheck⟩
        [false, true, false, true]
      = (⟨[(0, "alice"), (1, "alice")], [("alice", 1)]⟩,
         ⟨0, "alice", HsPhase.accepted⟩, ⟨1, "alice", HsPhase.accepted⟩)
    ∧ hsRun ⟨[], []⟩ ⟨0, "alice", HsPhase.atCheck⟩ ⟨1, "alice", HsPhase.atCheck⟩
        [false, false, true, true]
      = (⟨[(0, "alice")], [("alice", 0)]⟩,
         ⟨0, "alice", HsPhase.accepted⟩, ⟨1, "alice", HsPhase.rejected⟩) := by
  decide
